import Mathlib

/-!
Verification of the turn-orchestration core of `google/adk` (`runners.py`).

The embedding models, directly from the source:
* the `Event` data model (author, content, actions, the streaming-fragment
  flag, and function-call/response metadata),
* `Runner._find_agent_to_run` and `Runner._is_transferable_across_agent_tree`
  (turn resolution over the session's event history),
* `Runner._exec_with_plugin` (the four-phase plugin pipeline with selective
  persistence),
* `Runner.run_async` / `Runner._append_new_message_to_session` /
  `Runner.run_live` (entry points, precondition checks, user-event append),
* `Runner.run` (the sync bridge over a queue with a completion sentinel),
* `Runner._collect_toolset` / `Runner._cleanup_toolsets` (resource reaper).

Helpers that live outside the given source file (`find_matching_function_call`
from the flows module, `find_agent` / `find_sub_agent` from the agent base
class) are modelled from the specification's description of their interface.

Python-value conventions used throughout: `Optional[x]` becomes `Option`;
truthiness of an optional pydantic model is `Option.isSome`; a falsy `dict`
(absent or empty) collapses to `none`; machine side effects (persisting an
event, yielding an event) are recorded as an explicit action trace.
-/

namespace AdkRunner

/-- A part of a message `Content`: either inline blob data or plain text.
Mirrors the two cases `runners.py` distinguishes (`part.inline_data is None`). -/
inductive Part : Type where
  | blobPart (data : Nat) : Part
  | textPart (s : String) : Part
deriving DecidableEq, Repr

/-- Message content: an ordered list of parts (`types.Content.parts`; an absent
parts list collapses to `[]`, matching the code's falsiness test `not parts`). -/
structure Content : Type where
  parts : List Part
deriving DecidableEq, Repr

/-- An opaque state delta (the code only tests truthiness and stores it). -/
abbrev StateDelta := Nat

/-- Event actions: the optional state delta attached to an event
(`EventActions(state_delta=...)`; a falsy delta collapses to `none`). -/
structure EventActions : Type where
  stateDelta : Option StateDelta := none
deriving DecidableEq, Repr

/-- An event of the session log, per the source's data model: invocation id,
author (user sentinel / agent name / model sentinel), optional content,
actions, the streaming-fragment flag (`event.partial`, falsy by default), and
function-call / function-response metadata used by turn resolution. -/
structure Event : Type where
  invocationId : String := ""
  author : String
  content : Option Content := none
  actions : EventActions := {}
  partialFlag : Bool := false
  functionCallId : Option Nat := none
  functionResponseId : Option Nat := none
deriving DecidableEq, Repr

/-- The ids of function responses carried by one event (at most one in this
model), pushed onto the set of responses seen later in the scan. -/
def pushResponse (e : Event) (seen : List Nat) : List Nat :=
  match e.functionResponseId with
  | some r => r :: seen
  | none => seen

/-- Modelled from the spec: the newest-first scan behind
`find_matching_function_call` (defined in the flows module, outside the given
source file): find the most recent function-call event that has no matching
function-response event later in the sequence.  `seen` holds the response ids
of all strictly newer events. -/
def findUnansweredCall : List Nat → List Event → Option Event
  | _, [] => none
  | seen, e :: older =>
    match e.functionCallId with
    | some cid =>
      if cid ∈ seen then findUnansweredCall (pushResponse e seen) older
      else some e
    | none => findUnansweredCall (pushResponse e seen) older

/-- Modelled from the spec: `find_matching_function_call(session.events)` —
the most recent function-call event with no matching response later in the
sequence (events are stored oldest-first, so the scan runs on the reverse). -/
def findMatchingFunctionCall (events : List Event) : Option Event :=
  findUnansweredCall [] events.reverse

/-- An agent-tree node: unique name, LLM-capable variant flag
(`isinstance(agent, LlmAgent)`), `disallow_transfer_to_parent`, the ids of the
`BaseToolset`-typed entries of its `tools` list, and its sub-agents. -/
inductive Agent : Type where
  | node (name : String) (isLlm : Bool) (disallowTransferToParent : Bool)
      (toolsetIds : List Nat) (subAgents : List Agent) : Agent
deriving Repr

/-- The node's name. -/
def Agent.name : Agent → String
  | .node n _ _ _ _ => n

/-- Whether the node is of the LLM-capable variant. -/
def Agent.isLlm : Agent → Bool
  | .node _ l _ _ _ => l

/-- The node's transfer-disallow flag. -/
def Agent.disallowTransferToParent : Agent → Bool
  | .node _ _ d _ _ => d

/-- The ids of the toolsets directly referenced by the node's tools list. -/
def Agent.toolsetIds : Agent → List Nat
  | .node _ _ _ t _ => t

/-- The node's direct sub-agents. -/
def Agent.subAgents : Agent → List Agent
  | .node _ _ _ _ s => s

/-- Modelled from the spec: search a forest for a node of the given name,
by exact name match at arbitrary depth, preorder. -/
def findAgentForest : List Agent → String → Option Agent
  | [], _ => none
  | .node nm l d t subs :: rest, n =>
    if nm = n then some (.node nm l d t subs)
    else
      match findAgentForest subs n with
      | some r => some r
      | none => findAgentForest rest n

/-- Modelled from the spec: `root_agent.find_agent(name)` — tree-wide search,
exact name match at arbitrary depth, the root itself included. -/
def Agent.findAgent (a : Agent) (n : String) : Option Agent :=
  findAgentForest [a] n

/-- Modelled from the spec: `root_agent.find_sub_agent(name)` — lookup among
the root's direct children only, per the spec's observed usage. -/
def Agent.findSubAgent (a : Agent) (n : String) : Option Agent :=
  a.subAgents.find? (fun s => s.name == n)

/-- `Runner._is_transferable_across_agent_tree`, on the explicit chain from the
agent up through its ancestors to the root: every visited node must be of the
LLM-capable variant and must not set `disallow_transfer_to_parent`; the loop
ends when the parent chain is exhausted. -/
def isTransferableAcrossAgentTree (chain : List Agent) : Bool :=
  chain.all (fun a => a.isLlm && !a.disallowTransferToParent)

/-- The parent chain of an agent found as a direct child of the root:
the agent itself, then the root (its only ancestor). -/
def chainToRoot (a root : Agent) : List Agent :=
  [a, root]

/-- The newest-to-oldest scan loop of `Runner._find_agent_to_run` (its events
argument is newest-first): skip user-authored events; an event authored with
the root's name returns the root; an author unknown as a sub-agent is logged
and skipped; a known sub-agent is returned only if transferable, else the scan
continues with older events. -/
def scanForAgent (root : Agent) : List Event → Option Agent
  | [] => none
  | e :: older =>
    if e.author = "user" then scanForAgent root older
    else if e.author = root.name then some root
    else
      match root.findSubAgent e.author with
      | none => scanForAgent root older
      | some a =>
        if isTransferableAcrossAgentTree (chainToRoot a root) then some a
        else scanForAgent root older

/-- The scan loop followed by the fall-back `return root_agent`. -/
def scanOrRoot (root : Agent) (events : List Event) : Option Agent :=
  match scanForAgent root events.reverse with
  | some a => some a
  | none => some root

/-- `Runner._find_agent_to_run`: if the most recent unanswered function call
exists and has a truthy (non-empty) author, return `find_agent(author)`
directly — which is `none` when the author names no node of the tree;
otherwise run the newest-to-oldest scan with the root as fall-back. -/
def findAgentToRun (root : Agent) (events : List Event) : Option Agent :=
  match findMatchingFunctionCall events with
  | some e => if e.author = "" then scanOrRoot root events else root.findAgent e.author
  | none => scanOrRoot root events

/-- The plugin chain, reduced to the return values the pipeline consumes:
the before-run hook's optional early-exit content and the on-event hook's
optional replacement event. -/
structure Plugins : Type where
  beforeRun : Option Content
  onEvent : Event → Option Event

/-- One observable side effect of `_exec_with_plugin`: an event appended to
the session (`session_service.append_event`) or an event yielded to the
caller. -/
inductive Action : Type where
  | persist (e : Event) : Action
  | emit (e : Event) : Action
deriving DecidableEq, Repr

/-- The events appended to the session log by a trace, in order. -/
def persistedOf (tr : List Action) : List Event :=
  tr.filterMap (fun a => match a with | .persist e => some e | .emit _ => none)

/-- The events yielded to the caller by a trace, in order. -/
def emittedOf (tr : List Action) : List Event :=
  tr.filterMap (fun a => match a with | .emit e => some e | .persist _ => none)

/-- The event synthesized on a before-run early exit:
`Event(invocation_id=..., author='model', content=early_exit_result)`, with
every other field (including the streaming-fragment flag) at its default. -/
def earlyExitEvent (invId : String) (c : Content) : Event :=
  { invocationId := invId, author := "model", content := some c }

/-- The body of `_exec_with_plugin`'s normal-execution loop, one iteration per
event produced by `execute_fn`: persist the event when it is not partial, then
invoke the on-event hook and yield its replacement if any, else the original. -/
def eventLoop (p : Plugins) : List Event → List Action
  | [] => []
  | e :: rest =>
    (if e.partialFlag then [] else [Action.persist e])
      ++ Action.emit (match p.onEvent e with | some m => m | none => e)
      :: eventLoop p rest

/-- The actions the loop takes for one produced event (used to state the
per-event shape of the trace). -/
def perEventActions (p : Plugins) (e : Event) : List Action :=
  (if e.partialFlag then [] else [Action.persist e])
    ++ [Action.emit ((p.onEvent e).getD e)]

/-- What one `_exec_with_plugin` invocation does: its action trace, how many
times the after-run hook ran, whether an error propagated to the caller, and
whether `execute_fn` was consumed at all. -/
structure ExecResult : Type where
  trace : List Action
  afterRunCalls : Nat
  raised : Bool
  executeFnCalled : Bool
deriving Repr

/-- `execute_fn`'s behaviour as data: the events its lazy sequence produces,
and whether it raises after producing them (a raise part-way through a run is
a raise after the prefix of events already produced). -/
abbrev ExecuteFn := List Event × Bool

/-- `Runner._exec_with_plugin`: if the before-run hook returns a `Content`,
synthesize the early-exit event, persist it unconditionally, yield it, and
skip `execute_fn` entirely; otherwise drive `execute_fn` through the event
loop, and if its sequence raises, propagate the error.  The after-run hook
runs once afterwards unless an error propagated. -/
def execWithPlugin (p : Plugins) (invId : String) (fn : ExecuteFn) : ExecResult :=
  match p.beforeRun with
  | some c =>
    { trace := [Action.persist (earlyExitEvent invId c), Action.emit (earlyExitEvent invId c)]
      afterRunCalls := 1
      raised := false
      executeFnCalled := false }
  | none =>
    { trace := eventLoop p fn.1
      afterRunCalls := if fn.2 then 0 else 1
      raised := fn.2
      executeFnCalled := true }

/-- The precondition violations the entry points raise. -/
inductive RunError : Type where
  | sessionNotFound : RunError
  | emptyMessage : RunError
  | missingSessionIdentity : RunError
deriving DecidableEq, Repr

/-- The observable outcome of one entry-point invocation: the precondition
error raised (if any), the events yielded to the caller, the events appended
to the session log by this call, whether `execute_fn` was consumed, how many
times the after-run hook ran, and whether the agent's own sequence raised. -/
structure RunOutcome : Type where
  error : Option RunError
  emitted : List Event
  appended : List Event
  agentExecuted : Bool
  afterRunCalls : Nat
  agentRaised : Bool
deriving Repr

/-- The outcome of a call that fails fast on a precondition: the error is
raised before any event is produced or persisted and before the agent runs. -/
def errOutcome (err : RunError) : RunOutcome :=
  { error := some err
    emitted := []
    appended := []
    agentExecuted := false
    afterRunCalls := 0
    agentRaised := false }

/-- The user message after the on-user-message plugin hook: the hook's
replacement if it returned one, else the original (`if modified is not None`). -/
def resolvedMessage (onUserMessageResult : Option Content) (newMessage : Option Content) :
    Option Content :=
  match onUserMessageResult with
  | some m => some m
  | none => newMessage

/-- The blob-saving transformation of `_append_new_message_to_session`: when
an artifact service is configured and `save_input_blobs_as_artifacts` is set,
each inline-data part at index `i` is saved and replaced by the file-name
placeholder text; other parts are untouched. -/
def saveBlobsTransform (invId : String) (m : Content) : Content :=
  { parts := m.parts.enum.map (fun q =>
      match q.2 with
      | .blobPart _ =>
        .textPart ("Uploaded file: artifact_" ++ invId ++ "_" ++ toString q.1
          ++ ". It is saved into artifacts")
      | .textPart s => .textPart s) }

/-- The event `_append_new_message_to_session` appends: authored by the user
sentinel, carrying the (possibly transformed) message content, with the state
delta as its actions when one is supplied (a falsy delta collapses to `none`,
yielding the default `EventActions`). -/
def mkUserEvent (invId : String) (m : Content) (sd : Option StateDelta) : Event :=
  { invocationId := invId
    author := "user"
    content := some m
    actions := { stateDelta := sd } }

/-- `Runner._append_new_message_to_session` as a function from the session log
to either the precondition error (`No parts in the new_message.`) or the log
with the single user event appended. -/
def appendNewMessageToSession (invId : String) (events : List Event) (m : Content)
    (hasArtifactService saveBlobs : Bool) (sd : Option StateDelta) :
    Except RunError (List Event × Event) :=
  if m.parts = [] then .error .emptyMessage
  else
    let m' := if hasArtifactService && saveBlobs then saveBlobsTransform invId m else m
    let userEvent := mkUserEvent invId m' sd
    .ok (events ++ [userEvent], userEvent)

/-- `Runner.run_async`: session lookup (absent session fails fast), the
on-user-message hook, the user-event append for a truthy message (empty parts
fail fast), turn resolution over the log including the fresh user event, and
`_exec_with_plugin` over the resolved agent's `run_async` sequence.  The
user event is appended, never yielded. -/
def runAsync (sessionLookup : Option (List Event)) (root : Agent)
    (onUserMessageResult : Option Content) (p : Plugins) (invId : String)
    (newMessage : Option Content) (sd : Option StateDelta)
    (hasArtifactService saveBlobs : Bool)
    (agentRun : Option Agent → ExecuteFn) : RunOutcome :=
  match sessionLookup with
  | none => errOutcome .sessionNotFound
  | some events =>
    match resolvedMessage onUserMessageResult newMessage with
    | some m =>
      match appendNewMessageToSession invId events m hasArtifactService saveBlobs sd with
      | .error err => errOutcome err
      | .ok (events', userEvent) =>
        let ex := execWithPlugin p invId (agentRun (findAgentToRun root events'))
        { error := none
          emitted := emittedOf ex.trace
          appended := userEvent :: persistedOf ex.trace
          agentExecuted := ex.executeFnCalled
          afterRunCalls := ex.afterRunCalls
          agentRaised := ex.raised }
    | none =>
      let ex := execWithPlugin p invId (agentRun (findAgentToRun root events))
      { error := none
        emitted := emittedOf ex.trace
        appended := persistedOf ex.trace
        agentExecuted := ex.executeFnCalled
        afterRunCalls := ex.afterRunCalls
        agentRaised := ex.raised }

/-- `Runner.run_live`'s orchestration skeleton: fail fast when neither a
session object nor both a user id and a session id are supplied; otherwise use
the supplied session or look one up (absent fails fast); then resolve the
agent over the session log and run `_exec_with_plugin` over the agent's
`run_live` sequence (live mode appends no user message). -/
def runLive (userId sessionId : Option String) (sessionArg : Option (List Event))
    (sessionLookup : Option (List Event)) (root : Agent) (p : Plugins) (invId : String)
    (agentRun : Option Agent → ExecuteFn) : RunOutcome :=
  if sessionArg.isNone && (userId.isNone || sessionId.isNone) then
    errOutcome .missingSessionIdentity
  else
    let found := match sessionArg with
      | some evs => some evs
      | none => sessionLookup
    match found with
    | none => errOutcome .sessionNotFound
    | some events =>
      let ex := execWithPlugin p invId (agentRun (findAgentToRun root events))
      { error := none
        emitted := emittedOf ex.trace
        appended := persistedOf ex.trace
        agentExecuted := ex.executeFnCalled
        afterRunCalls := ex.afterRunCalls
        agentRaised := ex.raised }

/-- The contents of the sync bridge's thread-safe queue after the worker ends:
every event the asynchronous pipeline yielded (whether or not the worker then
raised), then the sentinel pushed by the inner guaranteed-cleanup block, then
the sentinel pushed by the thread's own guaranteed-cleanup block. -/
def workerQueue (asyncEmitted : List Event) : List (Option Event) :=
  asyncEmitted.map some ++ [none] ++ [none]

/-- The consumer loop of `Runner.run`: block on queue reads and re-yield
events until the sentinel is observed. -/
def consumeQueue : List (Option Event) → List Event
  | [] => []
  | none :: _ => []
  | some e :: rest => e :: consumeQueue rest

/-- `Runner.run`, the sync bridge: a worker drives `run_async` (which gets no
state delta) pushing events into the queue, and the calling thread re-yields
what it reads before the sentinel.  Worker-side errors are not surfaced: only
the end-of-stream sentinel reaches the consumer. -/
def runSync (sessionLookup : Option (List Event)) (root : Agent)
    (onUserMessageResult : Option Content) (p : Plugins) (invId : String)
    (newMessage : Option Content) (hasArtifactService saveBlobs : Bool)
    (agentRun : Option Agent → ExecuteFn) : List Event :=
  consumeQueue (workerQueue
    (runAsync sessionLookup root onUserMessageResult p invId newMessage none
      hasArtifactService saveBlobs agentRun).emitted)

/-- How one toolset's `close()` behaves: it finishes after some duration, or
it throws. -/
inductive CloseBehavior : Type where
  | finishes (duration : Nat) : CloseBehavior
  | throws : CloseBehavior
deriving DecidableEq, Repr

/-- What `_cleanup_toolsets` records for one toolset: closed successfully,
timed out (logged), or errored (logged).  All three continue the loop. -/
inductive CloseResult : Type where
  | closed : CloseResult
  | timedOut : CloseResult
  | errored : CloseResult
deriving DecidableEq, Repr

/-- The fixed per-toolset close timeout (`asyncio.wait_for(..., timeout=10.0)`). -/
def toolsetCloseTimeout : Nat := 10

/-- One `try`-guarded close attempt: a throw is caught as an error, a close
exceeding the timeout is caught as a timeout, otherwise the close succeeds;
none of the three propagates. -/
def closeOne (timeout : Nat) : CloseBehavior → CloseResult
  | .finishes d => if d ≤ timeout then .closed else .timedOut
  | .throws => .errored

/-- The multiset of toolset ids `_collect_toolset` adds while walking a
forest: each node's `BaseToolset`-typed tools when the node is of the LLM
variant, plus everything collected from its sub-agents, recursively. -/
def collectRawForest : List Agent → List Nat
  | [] => []
  | .node _ llm _ ts subs :: rest =>
    (if llm then ts else []) ++ collectRawForest subs ++ collectRawForest rest

/-- `Runner._collect_toolset`: the identity-deduplicated set of toolsets
reachable recursively from the agent tree (the Python `set`, as a dup-free
list). -/
def collectToolset (a : Agent) : List Nat :=
  (collectRawForest [a]).dedup

/-- Whether a toolset id is referenced by the tools list of some LLM-variant
node in the forest. -/
def ReachableForest : List Agent → Nat → Prop
  | [], _ => False
  | .node _ llm _ ts subs :: rest, t =>
    (llm = true ∧ t ∈ ts) ∨ ReachableForest subs t ∨ ReachableForest rest t

/-- Whether a toolset id is reachable from the agent tree: referenced by the
tools list of some LLM-variant node, at arbitrary depth. -/
def ReachableToolset (a : Agent) (t : Nat) : Prop :=
  ReachableForest [a] t

/-- `Runner._cleanup_toolsets`: close every collected toolset sequentially
under the fixed timeout; every attempt's failure is caught and logged, so the
loop always reaches every toolset and never raises. -/
def cleanupToolsets (behavior : Nat → CloseBehavior) (ts : List Nat) :
    List (Nat × CloseResult) :=
  ts.map (fun t => (t, closeOne toolsetCloseTimeout (behavior t)))

/-- The message after the optional blob-saving transformation of the append
step (identity unless an artifact service is configured and blob saving is
requested). -/
def finalMessage (invId : String) (hasArtifactService saveBlobs : Bool) (m : Content) :
    Content :=
  if hasArtifactService && saveBlobs then saveBlobsTransform invId m else m

/-- Fixture: a plugin chain with no hooks installed. -/
def noPlugins : Plugins :=
  { beforeRun := none, onEvent := fun _ => none }

/-- Fixture: the fixed content returned by a short-circuiting before-run hook. -/
def maintenanceContent : Content :=
  { parts := [Part.textPart "maintenance"] }

/-- Fixture: a plugin chain whose before-run hook short-circuits. -/
def shortCircuitPlugins : Plugins :=
  { beforeRun := some maintenanceContent, onEvent := fun _ => none }

/-- Fixture: a streaming-fragment event produced by an agent. -/
def streamingEvent : Event :=
  { author := "a", partialFlag := true }

/-- Fixture: a finalized event produced by an agent. -/
def finalEvent : Event :=
  { author := "a" }

/-- Fixture: an unanswered function call carrying an empty (falsy) author. -/
def emptyAuthorCall : Event :=
  { author := "", functionCallId := some 0 }

/-- Fixture: a non-LLM sub-agent whose name is the empty string. -/
def blankNamedChild : Agent :=
  .node "" false false [] []

/-- Fixture: a root whose only sub-agent has the empty name. -/
def blankNameRoot : Agent :=
  .node "r" true false [] [blankNamedChild]

/-- Fixture: an unanswered function call authored by the sub-agent `sub`. -/
def pendingCallEvent : Event :=
  { author := "sub", functionCallId := some 3 }

/-- Fixture: a sub-agent that is neither LLM-capable nor allowed to transfer. -/
def nonLlmSub : Agent :=
  .node "sub" false true [] []

/-- Fixture: a root whose only sub-agent is `nonLlmSub`. -/
def rootWithNonLlmSub : Agent :=
  .node "r" true false [] [nonLlmSub]

/-- Fixture: an LLM-capable sub-agent with transfer allowed. -/
def llmSub : Agent :=
  .node "sub" true false [] []

/-- Fixture: a root whose only sub-agent is `llmSub`. -/
def rootWithLlmSub : Agent :=
  .node "r2" true false [] [llmSub]

/-- Fixture: an ordinary (non-function-call) event authored by `sub`. -/
def subReplyEvent : Event :=
  { author := "sub" }

/-- Fixture: an unanswered function call authored by a name absent from the
tree. -/
def ghostCallEvent : Event :=
  { author := "ghost", functionCallId := some 0 }

/-- Fixture: a root agent with no sub-agents. -/
def soloRoot : Agent :=
  .node "root" true false [] []

/-- Fixture: a one-part user message. -/
def hiContent : Content :=
  { parts := [Part.textPart "hi"] }

/-- Fixture: a message with no parts. -/
def emptyContent : Content :=
  { parts := [] }

@[simp]
theorem emittedOf_nil : emittedOf [] = [] := rfl

@[simp]
theorem emittedOf_persist (e : Event) (tr : List Action) :
    emittedOf (Action.persist e :: tr) = emittedOf tr := rfl

@[simp]
theorem emittedOf_emit (e : Event) (tr : List Action) :
    emittedOf (Action.emit e :: tr) = e :: emittedOf tr := rfl

@[simp]
theorem emittedOf_append (t1 t2 : List Action) :
    emittedOf (t1 ++ t2) = emittedOf t1 ++ emittedOf t2 :=
  List.filterMap_append t1 t2 _

@[simp]
theorem persistedOf_nil : persistedOf [] = [] := rfl

@[simp]
theorem persistedOf_persist (e : Event) (tr : List Action) :
    persistedOf (Action.persist e :: tr) = e :: persistedOf tr := rfl

@[simp]
theorem persistedOf_emit (e : Event) (tr : List Action) :
    persistedOf (Action.emit e :: tr) = persistedOf tr := rfl

@[simp]
theorem persistedOf_append (t1 t2 : List Action) :
    persistedOf (t1 ++ t2) = persistedOf t1 ++ persistedOf t2 :=
  List.filterMap_append t1 t2 _

theorem eventLoop_eq_flatMap (p : Plugins) (evs : List Event) :
    eventLoop p evs = evs.flatMap (perEventActions p) := by
  induction evs with
  | nil => rfl
  | cons e rest ih =>
    cases h : p.onEvent e <;>
      simp [eventLoop, perEventActions, h, ih, List.flatMap_cons]

theorem emittedOf_eventLoop (p : Plugins) (evs : List Event) :
    emittedOf (eventLoop p evs) = evs.map (fun e => (p.onEvent e).getD e) := by
  induction evs with
  | nil => rfl
  | cons e rest ih =>
    cases hp : e.partialFlag <;> cases h : p.onEvent e <;>
      simp [eventLoop, hp, h, ih]

theorem persistedOf_eventLoop (p : Plugins) (evs : List Event) :
    persistedOf (eventLoop p evs) = evs.filter (fun e => !e.partialFlag) := by
  induction evs with
  | nil => rfl
  | cons e rest ih =>
    cases hp : e.partialFlag <;> cases h : p.onEvent e <;>
      simp [eventLoop, hp, h, ih, List.filter_cons]

theorem scanForAgent_some (root : Agent) (l : List Event) (b : Agent)
    (h : scanForAgent root l = some b) :
    b = root ∨ isTransferableAcrossAgentTree (chainToRoot b root) = true := by
  induction l with
  | nil => simp [scanForAgent] at h
  | cons e older ih =>
    simp only [scanForAgent] at h
    by_cases hu : e.author = "user"
    · rw [if_pos hu] at h
      exact ih h
    · rw [if_neg hu] at h
      by_cases hr : e.author = root.name
      · rw [if_pos hr] at h
        exact Or.inl (Option.some.inj h).symm
      · rw [if_neg hr] at h
        cases hs : root.findSubAgent e.author with
        | none =>
          simp only [hs] at h
          exact ih h
        | some a =>
          simp only [hs] at h
          by_cases ht : isTransferableAcrossAgentTree (chainToRoot a root) = true
          · rw [if_pos ht] at h
            exact Or.inr ((Option.some.inj h) ▸ ht)
          · rw [if_neg ht] at h
            exact ih h

@[simp]
theorem scanOrRoot_isSome (root : Agent) (events : List Event) :
    (scanOrRoot root events).isSome = true := by
  unfold scanOrRoot
  cases scanForAgent root events.reverse <;> simp

theorem consumeQueue_workerQueue (evs : List Event) :
    consumeQueue (workerQueue evs) = evs := by
  induction evs with
  | nil => rfl
  | cons e rest ih => simpa [workerQueue, consumeQueue] using ih

theorem execWithPlugin_trace_congr (p : Plugins) (invId : String) (fn fn' : ExecuteFn)
    (h : fn.1 = fn'.1) :
    (execWithPlugin p invId fn).trace = (execWithPlugin p invId fn').trace := by
  cases hb : p.beforeRun <;> simp [execWithPlugin, hb, h]

theorem runAsync_emitted_congr (sessionLookup : Option (List Event)) (root : Agent)
    (onUM : Option Content) (p : Plugins) (invId : String) (msg : Option Content)
    (sd : Option StateDelta) (ha sb : Bool) (agentRun agentRun' : Option Agent → ExecuteFn)
    (h : ∀ oa, (agentRun' oa).1 = (agentRun oa).1) :
    (runAsync sessionLookup root onUM p invId msg sd ha sb agentRun').emitted =
      (runAsync sessionLookup root onUM p invId msg sd ha sb agentRun).emitted := by
  cases sessionLookup with
  | none => rfl
  | some events =>
    cases hm : resolvedMessage onUM msg with
    | none =>
      simp only [runAsync, hm]
      rw [execWithPlugin_trace_congr p invId _ _ (h _)]
    | some m =>
      cases happ : appendNewMessageToSession invId events m ha sb sd with
      | error err => simp [runAsync, hm, happ]
      | ok pr =>
        obtain ⟨events', ue⟩ := pr
        simp only [runAsync, hm, happ]
        rw [execWithPlugin_trace_congr p invId _ _ (h _)]

theorem mem_collectRawForest (l : List Agent) (t : Nat) :
    t ∈ collectRawForest l ↔ ReachableForest l t := by
  induction l using collectRawForest.induct with
  | case1 => simp [collectRawForest, ReachableForest]
  | case2 nm llm d ts subs rest ih1 ih2 =>
    simp [collectRawForest, ReachableForest, ih1, ih2]

/-- C1: when the before-run hook yields a non-empty response content, the
pipeline persists and yields exactly one finalized event authored by the model
sentinel carrying that content, and `execute_fn` is never consumed (the whole
result is independent of it). -/
theorem before_run_short_circuit (p : Plugins) (invId : String) (fn : ExecuteFn)
    (c : Content) (hb : p.beforeRun = some c) (_hne : c.parts ≠ []) :
    execWithPlugin p invId fn =
      { trace := [Action.persist (earlyExitEvent invId c), Action.emit (earlyExitEvent invId c)]
        afterRunCalls := 1
        raised := false
        executeFnCalled := false }
    ∧ (earlyExitEvent invId c).author = "model"
    ∧ (earlyExitEvent invId c).partialFlag = false
    ∧ (earlyExitEvent invId c).content = some c
    ∧ ∀ fn' : ExecuteFn, execWithPlugin p invId fn' = execWithPlugin p invId fn := by
  refine ⟨?_, rfl, rfl, rfl, fun fn' => ?_⟩ <;> simp [execWithPlugin, hb]

/-- Witness for C1 at a concrete short-circuiting plugin chain. -/
theorem before_run_short_circuit_witness :
    (execWithPlugin shortCircuitPlugins "inv" ([], false)).trace =
      [Action.persist (earlyExitEvent "inv" maintenanceContent),
        Action.emit (earlyExitEvent "inv" maintenanceContent)] := by
  rw [(before_run_short_circuit shortCircuitPlugins "inv" ([], false) maintenanceContent rfl
    (by simp [maintenanceContent])).1]

/-- C2: under normal execution the pipeline's trace handles each produced
event in order: a non-partial event is persisted immediately before its yield,
a partial event is never persisted, every event passes through the on-event
hook, and the hook's replacement is yielded when provided, else the original. -/
theorem normal_execution_event_handling (p : Plugins) (invId : String) (fn : ExecuteFn)
    (hb : p.beforeRun = none) :
    (execWithPlugin p invId fn).trace = eventLoop p fn.1
    ∧ eventLoop p fn.1 = fn.1.flatMap (perEventActions p)
    ∧ emittedOf (eventLoop p fn.1) = fn.1.map (fun e => (p.onEvent e).getD e)
    ∧ persistedOf (eventLoop p fn.1) = fn.1.filter (fun e => !e.partialFlag) :=
  ⟨by simp [execWithPlugin, hb], eventLoop_eq_flatMap p fn.1,
    emittedOf_eventLoop p fn.1, persistedOf_eventLoop p fn.1⟩

/-- Witness for C2: a partial then a final event with no on-event hook; only
the final event is persisted. -/
theorem normal_execution_event_handling_witness :
    persistedOf (eventLoop noPlugins [streamingEvent, finalEvent]) = [finalEvent] := by
  rw [(normal_execution_event_handling noPlugins "inv" ([streamingEvent, finalEvent], false)
    rfl).2.2.2]
  decide

/-- C3: the after-run hook runs exactly once when execution completes without
raising (short-circuited or normal), and zero times when the event sequence of
`execute_fn` raises; an error propagates exactly when the before-run hook did
not short-circuit and the sequence raises. -/
theorem after_run_invocation (p : Plugins) (invId : String) (fn : ExecuteFn) :
    ((execWithPlugin p invId fn).raised = false → (execWithPlugin p invId fn).afterRunCalls = 1)
    ∧ ((execWithPlugin p invId fn).raised = true → (execWithPlugin p invId fn).afterRunCalls = 0)
    ∧ ((execWithPlugin p invId fn).raised = true ↔ p.beforeRun = none ∧ fn.2 = true) := by
  cases hb : p.beforeRun with
  | some c => simp [execWithPlugin, hb]
  | none => cases hfn : fn.2 <;> simp [execWithPlugin, hb, hfn]

/-- Witness for C3 at a raising `execute_fn`: no after-run invocation. -/
theorem after_run_invocation_witness :
    (execWithPlugin noPlugins "inv" ([], true)).afterRunCalls = 0 :=
  (after_run_invocation noPlugins "inv" ([], true)).2.1 rfl

/-- C4 counterexample: the claim fails for an unanswered function call whose
author is the empty string.  The empty author names a node of the tree (a
sub-agent whose name is empty), but the code's truthiness guard skips the
function-call branch and the normal scan rejects that non-LLM node, so
resolution returns the root instead of the named node. -/
theorem unanswered_call_empty_author_counterexample :
    findMatchingFunctionCall [emptyAuthorCall] = some emptyAuthorCall
    ∧ blankNameRoot.findAgent emptyAuthorCall.author = some blankNamedChild
    ∧ findAgentToRun blankNameRoot [emptyAuthorCall] = some blankNameRoot
    ∧ blankNameRoot ≠ blankNamedChild := by
  refine ⟨rfl, ?_, rfl, ?_⟩
  · simp [Agent.findAgent, findAgentForest, blankNameRoot, blankNamedChild, emptyAuthorCall]
  · simp [blankNameRoot, blankNamedChild]

/-- C4 (amended): when the most recent unanswered function call has a
non-empty author and that author names a node anywhere in the tree, turn
resolution returns that node, regardless of its capability or transfer flag
and regardless of any other events; with an empty author the function-call
branch is skipped as falsy. -/
theorem unanswered_call_routes_to_author (root : Agent) (events : List Event)
    (e : Event) (a : Agent) (hfind : findMatchingFunctionCall events = some e)
    (hauthor : e.author ≠ "") (ha : root.findAgent e.author = some a) :
    findAgentToRun root events = some a := by
  simp [findAgentToRun, hfind, hauthor, ha]

/-- Witness for amended C4: the pending call's author is a non-LLM sub-agent
with transfer disallowed, yet resolution returns it. -/
theorem unanswered_call_routes_to_author_witness :
    findAgentToRun rootWithNonLlmSub [pendingCallEvent] = some nonLlmSub :=
  unanswered_call_routes_to_author rootWithNonLlmSub [pendingCallEvent] pendingCallEvent
    nonLlmSub rfl (by simp [pendingCallEvent])
    (by simp [Agent.findAgent, findAgentForest, rootWithNonLlmSub, nonLlmSub, pendingCallEvent])

/-- C5: a non-root agent found by the newest-to-oldest scan is returned only
when every node on its chain to the root is LLM-capable with the transfer
flag unset; a scanned agent failing the check is skipped in favour of older
events; and an empty history resolves to the root. -/
theorem scan_requires_transferability (root : Agent) (events : List Event) (a : Agent) :
    (findMatchingFunctionCall events = none →
      findAgentToRun root events = some a →
      a.name ≠ root.name →
      isTransferableAcrossAgentTree (chainToRoot a root) = true)
    ∧ (∀ (e : Event) (older : List Event), e.author ≠ "user" → e.author ≠ root.name →
        (∀ b, root.findSubAgent e.author = some b →
          isTransferableAcrossAgentTree (chainToRoot b root) = false) →
        scanForAgent root (e :: older) = scanForAgent root older)
    ∧ findAgentToRun root [] = some root := by
  refine ⟨?_, ?_, rfl⟩
  · intro hnone hrun hname
    have hso : scanOrRoot root events = some a := by
      simpa [findAgentToRun, hnone] using hrun
    unfold scanOrRoot at hso
    cases hs : scanForAgent root events.reverse with
    | none =>
      rw [hs] at hso
      exact absurd (congrArg Agent.name (Option.some.inj hso)) (fun q => hname q.symm)
    | some b =>
      rw [hs] at hso
      have hab : b = a := Option.some.inj hso
      rcases scanForAgent_some root events.reverse b hs with hroot | htrans
      · exact absurd (congrArg Agent.name (hab ▸ hroot : a = root)) hname
      · rwa [hab] at htrans
  · intro e older hu hr hfail
    cases hs : root.findSubAgent e.author with
    | none => simp [scanForAgent, hu, hr, hs]
    | some b => simp [scanForAgent, hu, hr, hs, hfail b hs]

/-- Witness for C5: the scan returns the LLM sub-agent that replied last, and
its chain to the root is transferable. -/
theorem scan_requires_transferability_witness :
    isTransferableAcrossAgentTree (chainToRoot llmSub rootWithLlmSub) = true :=
  (scan_requires_transferability rootWithLlmSub [subReplyEvent] llmSub).1 rfl rfl
    (by simp [llmSub, rootWithLlmSub, Agent.name])

/-- C6 counterexample: the claim fails for an unanswered function call whose
author names no node of the tree: the function-call branch returns the
tree-wide lookup's miss directly (no agent at all) instead of logging and
skipping the event. -/
theorem resolver_unknown_call_author_counterexample :
    findMatchingFunctionCall [ghostCallEvent] = some ghostCallEvent
    ∧ soloRoot.findAgent ghostCallEvent.author = none
    ∧ findAgentToRun soloRoot [ghostCallEvent] = none := by
  refine ⟨rfl, ?_, ?_⟩ <;>
    simp [findAgentToRun, findMatchingFunctionCall, findUnansweredCall, Agent.findAgent,
      findAgentForest, soloRoot, ghostCallEvent]

/-- C6 (amended): turn resolution returns an agent whenever the most recent
unanswered function call (if any) has an empty author or an author present in
the tree; in particular unknown authors of ordinary events encountered during
the newest-to-oldest scan are skipped, never fatal.  Only an unanswered
function call authored by a name absent from the tree makes resolution return
no agent. -/
theorem resolver_totality (root : Agent) (events : List Event) :
    ((∀ e, findMatchingFunctionCall events = some e → e.author ≠ "" →
        (root.findAgent e.author).isSome = true) →
      (findAgentToRun root events).isSome = true)
    ∧ (∀ (e : Event) (older : List Event), e.author ≠ "user" → e.author ≠ root.name →
        root.findSubAgent e.author = none →
        scanForAgent root (e :: older) = scanForAgent root older) := by
  constructor
  · intro h
    cases hf : findMatchingFunctionCall events with
    | none => simp [findAgentToRun, hf]
    | some e =>
      by_cases he : e.author = ""
      · simp [findAgentToRun, hf, he]
      · simpa [findAgentToRun, hf, he] using h e hf he
  · intro e older hu hr hs
    simp [scanForAgent, hu, hr, hs]

/-- Witness for amended C6: on an empty history the resolver returns an agent
(the root). -/
theorem resolver_totality_witness :
    (findAgentToRun soloRoot []).isSome = true :=
  (resolver_totality soloRoot []).1
    (fun e h _ => by simp [findMatchingFunctionCall, findUnansweredCall] at h)

/-- C7: the sync bridge yields exactly the asynchronous pipeline's event
sequence in order; the sentinel is always on the queue so the consumer
unblocks even for a raising worker; and the sync output is independent of the
worker's raise flag (the error detail is not surfaced). -/
theorem sync_bridge_refinement (sessionLookup : Option (List Event)) (root : Agent)
    (onUM : Option Content) (p : Plugins) (invId : String) (msg : Option Content)
    (ha sb : Bool) (agentRun : Option Agent → ExecuteFn) :
    runSync sessionLookup root onUM p invId msg ha sb agentRun =
      (runAsync sessionLookup root onUM p invId msg none ha sb agentRun).emitted
    ∧ (none : Option Event) ∈
        workerQueue (runAsync sessionLookup root onUM p invId msg none ha sb agentRun).emitted
    ∧ ∀ agentRun' : Option Agent → ExecuteFn,
        (∀ oa, (agentRun' oa).1 = (agentRun oa).1) →
        runSync sessionLookup root onUM p invId msg ha sb agentRun' =
          runSync sessionLookup root onUM p invId msg ha sb agentRun := by
  refine ⟨consumeQueue_workerQueue _, by simp [workerQueue], fun agentRun' h => ?_⟩
  unfold runSync
  rw [runAsync_emitted_congr sessionLookup root onUM p invId msg none ha sb agentRun agentRun' h]

/-- Witness for C7: a worker that raises right away produces the same sync
output as one that completes cleanly. -/
theorem sync_bridge_refinement_witness :
    runSync (some []) soloRoot none noPlugins "inv" none false false (fun _ => ([], true)) =
      runSync (some []) soloRoot none noPlugins "inv" none false false (fun _ => ([], false)) :=
  (sync_bridge_refinement (some []) soloRoot none noPlugins "inv" none false false
    (fun _ => ([], false))).2.2 (fun _ => ([], true)) (fun _ => rfl)

/-- C8: each precondition violation — absent session for `run_async`, absent
session for `run_live`, a message with no parts, and live mode invoked with
neither a session nor both identifiers — fails fast: the outcome carries the
error with no event yielded, nothing appended, the agent never executed and
the after-run hook never invoked. -/
theorem precondition_fail_fast :
    (∀ (root : Agent) (onUM : Option Content) (p : Plugins) (invId : String)
        (msg : Option Content) (sd : Option StateDelta) (ha sb : Bool)
        (agentRun : Option Agent → ExecuteFn),
      runAsync none root onUM p invId msg sd ha sb agentRun = errOutcome .sessionNotFound)
    ∧ (∀ (events : List Event) (root : Agent) (onUM : Option Content) (p : Plugins)
        (invId : String) (msg : Option Content) (sd : Option StateDelta) (ha sb : Bool)
        (agentRun : Option Agent → ExecuteFn) (m : Content),
      resolvedMessage onUM msg = some m → m.parts = [] →
      runAsync (some events) root onUM p invId msg sd ha sb agentRun = errOutcome .emptyMessage)
    ∧ (∀ (userId sessionId : Option String) (sessionLookup : Option (List Event))
        (root : Agent) (p : Plugins) (invId : String) (agentRun : Option Agent → ExecuteFn),
      userId = none ∨ sessionId = none →
      runLive userId sessionId none sessionLookup root p invId agentRun =
        errOutcome .missingSessionIdentity)
    ∧ (∀ (u s : String) (root : Agent) (p : Plugins) (invId : String)
        (agentRun : Option Agent → ExecuteFn),
      runLive (some u) (some s) none none root p invId agentRun =
        errOutcome .sessionNotFound) := by
  refine ⟨fun _ _ _ _ _ _ _ _ _ => rfl, ?_, ?_, fun _ _ _ _ _ _ => rfl⟩
  · intro events root onUM p invId msg sd ha sb agentRun m hm hparts
    simp [runAsync, hm, appendNewMessageToSession, hparts]
  · intro userId sessionId sessionLookup root p invId agentRun h
    rcases h with h | h <;> subst h <;> simp [runLive]

/-- Witness for C8: an empty user message fails fast on a live session. -/
theorem precondition_fail_fast_witness :
    runAsync (some []) soloRoot (some emptyContent) noPlugins "inv" none none false false
      (fun _ => ([], false)) = errOutcome .emptyMessage :=
  precondition_fail_fast.2.1 [] soloRoot (some emptyContent) noPlugins "inv" none none false
    false (fun _ => ([], false)) emptyContent rfl rfl

/-- C9: cleanup attempts every collected toolset in order regardless of how
any individual close behaves (timeouts and throws are caught); the collected
set is duplicate-free, so a toolset shared by two agents is closed exactly
once; and it contains precisely the toolsets reachable recursively from the
tree. -/
theorem toolset_cleanup (a : Agent) (behavior : Nat → CloseBehavior) :
    (cleanupToolsets behavior (collectToolset a)).map Prod.fst = collectToolset a
    ∧ (collectToolset a).Nodup
    ∧ ∀ t : Nat, t ∈ collectToolset a ↔ ReachableToolset a t := by
  refine ⟨?_, List.nodup_dedup _, fun t => ?_⟩
  · simp [cleanupToolsets, List.map_map, Function.comp_def]
  · rw [collectToolset, List.mem_dedup]
    exact mem_collectRawForest [a] t

/-- C10: a truthy new message is appended to the session as exactly one
user-authored event — carrying the (possibly plugin-replaced, possibly
blob-transformed) content and the supplied state delta as its actions —
before turn resolution and before any execution; the caller's yield stream is
exactly the execution pipeline's, so the append yields nothing. -/
theorem run_async_user_event_append (events : List Event) (root : Agent)
    (onUM : Option Content) (p : Plugins) (invId : String) (msg : Option Content)
    (sd : Option StateDelta) (ha sb : Bool) (agentRun : Option Agent → ExecuteFn)
    (m : Content) (hm : resolvedMessage onUM msg = some m) (hparts : m.parts ≠ []) :
    (runAsync (some events) root onUM p invId msg sd ha sb agentRun).error = none
    ∧ (runAsync (some events) root onUM p invId msg sd ha sb agentRun).appended =
        mkUserEvent invId (finalMessage invId ha sb m) sd
          :: persistedOf (execWithPlugin p invId (agentRun (findAgentToRun root
              (events ++ [mkUserEvent invId (finalMessage invId ha sb m) sd])))).trace
    ∧ (runAsync (some events) root onUM p invId msg sd ha sb agentRun).emitted =
        emittedOf (execWithPlugin p invId (agentRun (findAgentToRun root
          (events ++ [mkUserEvent invId (finalMessage invId ha sb m) sd])))).trace
    ∧ (mkUserEvent invId (finalMessage invId ha sb m) sd).author = "user"
    ∧ (mkUserEvent invId (finalMessage invId ha sb m) sd).content =
        some (finalMessage invId ha sb m)
    ∧ (mkUserEvent invId (finalMessage invId ha sb m) sd).actions.stateDelta = sd := by
  have happ : appendNewMessageToSession invId events m ha sb sd =
      .ok (events ++ [mkUserEvent invId (finalMessage invId ha sb m) sd],
        mkUserEvent invId (finalMessage invId ha sb m) sd) := by
    simp [appendNewMessageToSession, hparts, finalMessage]
  refine ⟨?_, ?_, ?_, rfl, rfl, rfl⟩ <;> simp [runAsync, hm, happ]

/-- Witness for C10 at a concrete one-part message with no plugins. -/
theorem run_async_user_event_append_witness :
    (runAsync (some []) soloRoot none noPlugins "inv" (some hiContent) none false false
      (fun _ => ([], false))).appended = [mkUserEvent "inv" hiContent none] := by
  rw [(run_async_user_event_append [] soloRoot none noPlugins "inv" (some hiContent) none
    false false (fun _ => ([], false)) hiContent rfl (by simp [hiContent])).2.1]
  simp [finalMessage, execWithPlugin, noPlugins, eventLoop]

end AdkRunner
